import Mathlib

/-!
Verification of the readline line-editing engine against its specification.

The definitions below are a shallow embedding of the converged design in
`src/unnamed/part_001` (the `readline.hh` header): the `Buffer`, `History`,
`HistoryView`, `CommandSequences` and `CommandReader` classes.  C++
`std::string` values are modelled as `List Char` (or `String` for history
entries), `size_t` as `Nat` (all the modelled operations guard against
underflow, so no wrap-around arithmetic occurs on the modelled paths), and
`std::deque<std::string>` as `List String`.  Operations that may throw
(`std::deque::at`, the dispatcher's unknown-command path) return `Option`
or a dedicated result constructor.
-/

/-- Helper for `std::string::insert(pos, s)`: inserts `t` before position
`pos` of `s` (clamped to the end, which matches the in-range uses of the
source, where the cursor invariant keeps `pos ≤ s.length`). -/
def strInsert (s : List Char) (pos : Nat) (t : List Char) : List Char :=
  s.take pos ++ t ++ s.drop pos

/-- Helper for `std::string::erase(pos, 1)`: removes the one character at
position `pos` of `s`. -/
def strErase1 (s : List Char) (pos : Nat) : List Char :=
  s.take pos ++ s.drop (pos + 1)

/-- Line buffer (`class Buffer`, src/unnamed/part_001 lines 291-357):
a cursor position `cursor_pos` (C++ `size_t cursor_pos_{0}`) and the line
content `data` (C++ `std::string data_`). -/
structure Buffer where
  cursor_pos : Nat
  data : List Char
deriving DecidableEq, Repr

/-- A freshly constructed buffer: empty content, cursor at 0. -/
def Buffer.init : Buffer := ⟨0, []⟩

/-- Buffer::insert (src/unnamed/part_001 lines 296-310).  At the end of the
content it is a `push_back`; otherwise the tail is split off (`substr` and
`erase`), the character inserted, the cursor advanced, and the tail
re-inserted after it. -/
def Buffer.insert (b : Buffer) (c : Char) : Buffer :=
  if b.cursor_pos = b.data.length then
    { cursor_pos := b.cursor_pos + 1, data := b.data ++ [c] }
  else
    let ending := b.data.drop b.cursor_pos
    let d1 := b.data.take b.cursor_pos
    let d2 := strInsert d1 b.cursor_pos [c]
    { cursor_pos := b.cursor_pos + 1, data := strInsert d2 (b.cursor_pos + 1) ending }

/-- Buffer::move_left (src/unnamed/part_001 lines 312-316): decrement the
cursor only when it is at least 1. -/
def Buffer.move_left (b : Buffer) : Buffer :=
  if 1 ≤ b.cursor_pos then { b with cursor_pos := b.cursor_pos - 1 } else b

/-- Buffer::move_right (src/unnamed/part_001 lines 318-322): increment the
cursor only when it is strictly below the content length. -/
def Buffer.move_right (b : Buffer) : Buffer :=
  if b.cursor_pos < b.data.length then { b with cursor_pos := b.cursor_pos + 1 } else b

/-- Buffer::remove (src/unnamed/part_001 lines 324-328): when the cursor is
at least 1, decrement it and erase the character at the new position;
otherwise do nothing. -/
def Buffer.remove (b : Buffer) : Buffer :=
  if 1 ≤ b.cursor_pos then
    { cursor_pos := b.cursor_pos - 1, data := strErase1 b.data (b.cursor_pos - 1) }
  else b

/-- Buffer::clear (src/unnamed/part_001 lines 330-333). -/
def Buffer.clear (_ : Buffer) : Buffer := ⟨0, []⟩

/-- Buffer::reset (src/unnamed/part_001 lines 335-338): replace the content
wholesale and put the cursor at its end. -/
def Buffer.reset (_ : Buffer) (s : List Char) : Buffer := ⟨s.length, s⟩

/-- Buffer::position accessor. -/
def Buffer.position (b : Buffer) : Nat := b.cursor_pos

/-- Buffer::size accessor. -/
def Buffer.size (b : Buffer) : Nat := b.data.length

/-- One invocation of a public mutating Buffer operation. -/
inductive BufOp where
  | insert (c : Char)
  | move_left
  | move_right
  | remove
  | clear
  | reset (s : List Char)
deriving DecidableEq, Repr

/-- Apply one Buffer operation. -/
def Buffer.apply (b : Buffer) : BufOp → Buffer
  | .insert c => b.insert c
  | .move_left => b.move_left
  | .move_right => b.move_right
  | .remove => b.remove
  | .clear => b.clear
  | .reset s => b.reset s

/-- Run a sequence of Buffer operations from the empty buffer, exactly the
states reachable through the public interface. -/
def Buffer.runOps (ops : List BufOp) : Buffer := ops.foldl Buffer.apply Buffer.init

/-- Bounded history (`class History`, src/unnamed/part_001 lines 173-210):
`max_entries` models `size_t max_entries_{1024}` and `entries` models the
`std::deque<std::string> entries_`.  The history file pointer takes no part
in any modelled operation. -/
structure History where
  max_entries : Nat
  entries : List String
deriving DecidableEq, Repr

/-- History::get_line (src/unnamed/part_001 lines 186-188): `entries_.at(n)`;
`none` models the `std::out_of_range` exception. -/
def History.get_line (h : History) (n : Nat) : Option String := h.entries.get? n

/-- History::add_line (src/unnamed/part_001 lines 190-197): push the line at
the back, then pop the front entry when the size exceeds the capacity. -/
def History.add_line (h : History) (line : String) : History :=
  let e := h.entries ++ [line]
  if h.max_entries < e.length then { h with entries := e.tail } else { h with entries := e }

/-- History::size. -/
def History.size (h : History) : Nat := h.entries.length

/-- Fold History::add_line over a list of lines. -/
def History.addAll (h : History) (lines : List String) : History :=
  lines.foldl History.add_line h

/-- History view (`class HistoryView`, src/unnamed/part_001 lines 212-266):
an owned `History` plus the navigation cursor `size_t current_line_{0}`. -/
structure HistoryView where
  history : History
  current_line : Nat
deriving DecidableEq, Repr

/-- HistoryView::add_line (src/unnamed/part_001 lines 218-225): remember the
size, delegate to History::add_line, and advance the navigation cursor only
when the size actually grew. -/
def HistoryView.add_line (v : HistoryView) (line : String) : HistoryView :=
  let current_size := v.history.size
  let h := v.history.add_line line
  if current_size < h.size then ⟨h, v.current_line + 1⟩ else ⟨h, v.current_line⟩

/-- HistoryView::reset_position (src/unnamed/part_001 lines 227-229). -/
def HistoryView.reset_position (v : HistoryView) : HistoryView :=
  ⟨v.history, v.history.size⟩

/-- HistoryView::size. -/
def HistoryView.size (v : HistoryView) : Nat := v.history.size

/-- HistoryView::previous (src/unnamed/part_001 lines 239-252).  The result
pairs the returned string with the successor state; `none` models an
out-of-range exception escaping from `History::get_line` (impossible under
the cursor invariant, as proved below). -/
def HistoryView.previous (v : HistoryView) : Option (String × HistoryView) :=
  if v.history.size = 0 then
    some ("", v)
  else if 0 < v.current_line then
    match v.history.get_line (v.current_line - 1) with
    | some s => some (s, ⟨v.history, v.current_line - 1⟩)
    | none => none
  else
    match v.history.get_line 0 with
    | some s => some (s, v)
    | none => none

/-- HistoryView::next (src/unnamed/part_001 lines 254-265): empty history
yields the empty string; a cursor strictly below the size yields the entry
at the cursor and a post-incremented cursor; at the end it yields the empty
string and leaves the cursor alone. -/
def HistoryView.next (v : HistoryView) : Option (String × HistoryView) :=
  if v.history.size = 0 then
    some ("", v)
  else if v.current_line < v.history.size then
    match v.history.get_line v.current_line with
    | some s => some (s, ⟨v.history, v.current_line + 1⟩)
    | none => none
  else
    some ("", v)

/-- Readline::do_accept_command composed with Readline::add_history
(src/unnamed/part_001 lines 606-612 and 671-673), restricted to its effect
on the history state: `history_.add_line(buffer_.data())` followed by
`history_.reset_position()`.  The terminal writes take no part. -/
def doAcceptCommand (v : HistoryView) (b : Buffer) : HistoryView :=
  (v.add_line (String.mk b.data)).reset_position

/-- Command dispatch trie (`struct CommandSequences`, src/unnamed/part_001
lines 388-451): the `std::unordered_map<char, shared_ptr<CommandSequences>>
sequences` member becomes an association list with unique character keys,
and the `std::function<void(void)> command` member becomes an optional
opaque action label of type `α` (the dispatcher only ever calls the stored
closure, so its identity is all that matters). -/
inductive CTrie (α : Type) : Type where
  | node : List (Char × CTrie α) → Option α → CTrie α
deriving Repr

/-- Child map of a trie node (the `sequences` member). -/
def CTrie.sequences {α : Type} : CTrie α → List (Char × CTrie α)
  | .node s _ => s

/-- Action of a trie node (the `command` member; `none` models an empty
`std::function`). -/
def CTrie.command {α : Type} : CTrie α → Option α
  | .node _ c => c

/-- Lookup by key in the child map (`sequences.count` / `sequences.at`). -/
def lookupSeq {α : Type} : List (Char × CTrie α) → Char → Option (CTrie α)
  | [], _ => none
  | (k, t) :: rest, c => if k = c then some t else lookupSeq rest c

/-- Update or add the binding for a key in the child map (the
`sequences[*begin]` subscript of `std::unordered_map`, which inserts a
default-constructed entry when the key is absent). -/
def updateSeq {α : Type} : List (Char × CTrie α) → Char → CTrie α → List (Char × CTrie α)
  | [], c, t => [(c, t)]
  | (k, u) :: rest, c, t => if k = c then (c, t) :: rest else (k, u) :: updateSeq rest c t

/-- CommandSequences::contains (src/unnamed/part_001 lines 426-428). -/
def CTrie.find? {α : Type} (t : CTrie α) (c : Char) : Option (CTrie α) :=
  lookupSeq t.sequences c

/-- CommandSequences::insert (src/unnamed/part_001 lines 397-414): walk the
key sequence, creating empty nodes for missing children, and store the
action at the final node (the iterative pointer walk of the source becomes
recursion on the key list). -/
def CTrie.insert {α : Type} : CTrie α → List Char → α → CTrie α
  | t, [], a => .node t.sequences (some a)
  | t, c :: rest, a =>
    let child := (lookupSeq t.sequences c).getD (.node [] none)
    .node (updateSeq t.sequences c (child.insert rest a)) t.command

/-- One observable event of a dispatch run: a registered action fired, or
the default action fired while `curchar_` held the given byte. -/
inductive DEvent (α : Type) where
  | action : α → DEvent α
  | dflt : Char → DEvent α
deriving DecidableEq, Repr

/-- Outcome of a dispatch run: the input was consumed to EOF, or the
`std::runtime_error("Unknown command: ...")` was thrown for the recorded
byte (the events fired before the throw are kept), or the step budget ran
out (the source can loop forever when the root node itself carries a
command, so the embedding is fuelled). -/
inductive RunResult (α : Type) where
  | finished : List (DEvent α) → RunResult α
  | unknown : List (DEvent α) → Char → RunResult α
  | fuelOut : RunResult α
deriving DecidableEq, Repr

/-- Prepend an event to the trace of a run outcome. -/
def consEvent {α : Type} (e : DEvent α) : RunResult α → RunResult α
  | .finished es => .finished (e :: es)
  | .unknown es c => .unknown (e :: es) c
  | .fuelOut => .fuelOut

/-- CommandReader::read_and_execute (src/unnamed/part_001 lines 498-550).
The stream is a `List Char` (an exhausted list models EOF; `unget` pushes
the byte back by re-consing it).  `root` is the full command table
`commands_`, `dflt` the optional default action `default_`, and the trie
argument is the current position `sequence` of the match.  Per iteration:
a byte is read; if the current node lacks a child for it, either the
current node's own command fires and the byte is ungot, or (with no command
here) the default fires for that byte, or an unknown-command error is
thrown; if a child exists the match descends, firing immediately when the
child is a leaf carrying a command. -/
def readAndExecute {α : Type} (root : CTrie α) (dflt : Option α) :
    Nat → CTrie α → List Char → RunResult α
  | 0, _, _ => .fuelOut
  | _ + 1, _, [] => .finished []
  | n + 1, t, c :: rest =>
    match t.find? c with
    | none =>
      match t.command with
      | some a => consEvent (.action a) (readAndExecute root dflt n root (c :: rest))
      | none =>
        match dflt with
        | some _ => consEvent (.dflt c) (readAndExecute root dflt n root rest)
        | none => .unknown [] c
    | some t' =>
      match t'.sequences.isEmpty, t'.command with
      | true, some a => consEvent (.action a) (readAndExecute root dflt n root rest)
      | _, _ => readAndExecute root dflt n t' rest

/-- The trie of the longest-match scenario: actions registered for the byte
sequence "a", then "ab", then "abc" (the three `add_command` calls of the
spec's dispatcher test). -/
def trieABC {α : Type} (a1 a2 a3 : α) : CTrie α :=
  (((CTrie.node [] none).insert [ 'a' ] a1).insert [ 'a', 'b' ] a2).insert [ 'a', 'b', 'c' ] a3

lemma Buffer.apply_inv (b : Buffer) (h : b.cursor_pos ≤ b.data.length) (op : BufOp) :
    (b.apply op).cursor_pos ≤ (b.apply op).data.length := by
  cases op <;>
    simp only [Buffer.apply, Buffer.insert, Buffer.move_left, Buffer.move_right,
      Buffer.remove, Buffer.clear, Buffer.reset, strInsert, strErase1] <;>
    (try split_ifs) <;>
    simp_all [List.length_take, List.length_drop] <;>
    omega

lemma Buffer.foldl_apply_inv :
    ∀ (ops : List BufOp) (b : Buffer), b.cursor_pos ≤ b.data.length →
      (ops.foldl Buffer.apply b).cursor_pos ≤ (ops.foldl Buffer.apply b).data.length
  | [], _, h => h
  | op :: ops, b, h => Buffer.foldl_apply_inv ops _ (Buffer.apply_inv b h op)

/-- C2: every Buffer state reachable from the empty buffer satisfies
0 ≤ cursor ≤ length of the content, and every operation (insert, move_left,
move_right, remove, clear, reset) applied to such a state preserves that
range; in particular move_left at cursor 0 and move_right at the end keep
the cursor in range (the arbitrary `op` covers both). -/
theorem buffer_cursor_invariant (ops : List BufOp) (op : BufOp) :
    (0 ≤ (Buffer.runOps ops).cursor_pos ∧
      (Buffer.runOps ops).cursor_pos ≤ (Buffer.runOps ops).data.length) ∧
    (0 ≤ ((Buffer.runOps ops).apply op).cursor_pos ∧
      ((Buffer.runOps ops).apply op).cursor_pos ≤ ((Buffer.runOps ops).apply op).data.length) := by
  have h1 := Buffer.foldl_apply_inv ops Buffer.init (by simp [Buffer.init])
  exact ⟨⟨Nat.zero_le _, h1⟩, Nat.zero_le _, Buffer.apply_inv _ h1 op⟩

/-- C8: for content `s` and cursor `k ≤ length s`, Buffer::insert produces
the first `k` characters, then the new character, then the rest, with the
cursor at `k + 1`. -/
theorem buffer_interior_insert (s : List Char) (k : Nat) (c : Char) (hk : k ≤ s.length) :
    (Buffer.mk k s).insert c = Buffer.mk (k + 1) (s.take k ++ c :: s.drop k) := by
  unfold Buffer.insert
  by_cases h : k = s.length
  · subst h
    simp
  · have hlt : k < s.length := lt_of_le_of_ne hk h
    simp only [h, if_false]
    have h1 : (s.take k).length = k := by simp [List.length_take]; omega
    congr 1
    simp [strInsert, List.take_take, h1, List.take_of_length_le, List.drop_eq_nil_of_le, h1.le]

/-- Witness for C8: from content "abcd" with cursor 2, inserting the
character x yields "abxcd" with cursor 3. -/
theorem buffer_interior_insert_witness :
    (Buffer.mk 2 [ 'a', 'b', 'c', 'd' ]).insert 'x' = Buffer.mk 3 [ 'a', 'b', 'x', 'c', 'd' ] :=
  (buffer_interior_insert [ 'a', 'b', 'c', 'd' ] 2 'x' (by decide)).trans (by decide)

/-- C9: Buffer::remove with the cursor at 0 is a no-op: the state (content
and cursor) is returned unchanged, and since the operation is total in the
embedding no exception path exists. -/
theorem buffer_remove_at_zero (b : Buffer) (h : b.cursor_pos = 0) : b.remove = b := by
  unfold Buffer.remove
  rw [h]
  simp

/-- Witness for C9: removing on the empty buffer leaves it unchanged. -/
theorem buffer_remove_at_zero_witness : Buffer.init.remove = Buffer.init :=
  buffer_remove_at_zero Buffer.init rfl

/-- C3: HistoryView::next returns the empty string when the history is
empty; when the cursor is strictly below the size it returns the entry at
the cursor and increments the cursor; when the cursor has reached the size
it returns the empty string without moving the cursor.  The equation covers
all three cases and shows no exception escapes. -/
theorem historyview_next_end_behavior (v : HistoryView) :
    v.next = some (
      if v.history.size = 0 then ("", v)
      else if v.current_line < v.history.size then
        (v.history.entries.getD v.current_line "", ⟨v.history, v.current_line + 1⟩)
      else ("", v)) := by
  unfold HistoryView.next
  split_ifs with h0 h1
  · rfl
  · have hlt : v.current_line < v.history.entries.length := h1
    simp [History.get_line, List.get?_eq_getElem?, List.getElem?_eq_getElem hlt,
      List.getD_eq_getElem _ _ hlt]
  · rfl

/-- C6: HistoryView::previous returns the empty string when the history is
empty; with a strictly positive cursor it decrements the cursor and returns
the entry at the new cursor; at cursor 0 it returns the oldest entry (index
0) and leaves the state unchanged, so repeated calls keep returning the
oldest line and the cursor never goes negative. -/
theorem historyview_previous_saturates (v : HistoryView)
    (hinv : v.current_line ≤ v.history.size) :
    v.previous = some (
      if v.history.size = 0 then ("", v)
      else if 0 < v.current_line then
        (v.history.entries.getD (v.current_line - 1) "", ⟨v.history, v.current_line - 1⟩)
      else (v.history.entries.getD 0 "", v)) := by
  unfold HistoryView.previous
  have hsz : v.history.size = v.history.entries.length := rfl
  split_ifs with h0 h1
  · rfl
  · have hlt : v.current_line - 1 < v.history.entries.length := by omega
    simp [History.get_line, List.get?_eq_getElem?, List.getElem?_eq_getElem hlt,
      List.getD_eq_getElem _ _ hlt]
  · have hlt : 0 < v.history.entries.length := by omega
    simp [History.get_line, List.get?_eq_getElem?, List.getElem?_eq_getElem hlt,
      List.getD_eq_getElem _ _ hlt]

/-- Witness for C6: at cursor 0 over entries L0, L1, L2 the call returns
L0 and leaves the view unchanged (saturation at the oldest line). -/
theorem historyview_previous_saturates_witness :
    (HistoryView.mk (History.mk 1024 ["L0", "L1", "L2"]) 0).previous
      = some ("L0", HistoryView.mk (History.mk 1024 ["L0", "L1", "L2"]) 0) :=
  (historyview_previous_saturates (HistoryView.mk (History.mk 1024 ["L0", "L1", "L2"]) 0)
    (by decide)).trans (by decide)

/-- C4: HistoryView::add_line appends the line to the underlying History
with FIFO eviction at capacity, and when the navigation cursor pointed
one-past-the-last entry it again equals size() afterwards — also when an
old entry was evicted (in that case the size is unchanged and the cursor is
left in place, which is again one-past-the-last entry). -/
theorem historyview_add_line_cursor (v : HistoryView) (line : String)
    (hc : v.current_line = v.history.size) :
    ((v.add_line line).history.entries =
      if v.history.max_entries < v.history.entries.length + 1
      then (v.history.entries ++ [line]).tail
      else v.history.entries ++ [line]) ∧
    (v.add_line line).current_line = (v.add_line line).history.size := by
  unfold HistoryView.add_line History.add_line
  have hsz : v.history.size = v.history.entries.length := rfl
  simp only [History.size, List.length_append, List.length_cons, List.length_nil]
  split_ifs with h1 <;> simp_all [History.size, HistoryView.add_line]

/-- Witness for C4: a history at capacity 2 holding a and b accepts c,
evicting a, and the cursor again equals the size. -/
theorem historyview_add_line_cursor_witness :
    ((HistoryView.mk (History.mk 2 ["a", "b"]) 2).add_line "c").history.entries = ["b", "c"] ∧
    ((HistoryView.mk (History.mk 2 ["a", "b"]) 2).add_line "c").current_line
      = ((HistoryView.mk (History.mk 2 ["a", "b"]) 2).add_line "c").history.size := by
  have h := historyview_add_line_cursor (HistoryView.mk (History.mk 2 ["a", "b"]) 2) "c" rfl
  exact ⟨h.1.trans (by decide), h.2⟩

lemma History.addAll_spec :
    ∀ (ls : List String) (h : History), h.entries.length ≤ h.max_entries →
      (History.addAll h ls).max_entries = h.max_entries ∧
      (History.addAll h ls).entries
        = (h.entries ++ ls).drop (h.entries.length + ls.length - h.max_entries)
  | [], h, hle => by
    simp [History.addAll, Nat.sub_eq_zero_of_le hle]
  | l :: ls, h, hle => by
    have step : History.addAll h (l :: ls) = History.addAll (h.add_line l) ls := rfl
    rw [step]
    unfold History.add_line
    simp only [List.length_append, List.length_cons, List.length_nil]
    by_cases h1 : h.max_entries < h.entries.length + 1
    · have hlen : h.entries.length = h.max_entries := by omega
      rw [if_pos (by simpa using h1)]
      have ih := History.addAll_spec ls ⟨h.max_entries, (h.entries ++ [l]).tail⟩
        (by simp [List.length_tail]; omega)
      rcases ih with ⟨ihm, ihe⟩
      refine ⟨ihm, ?_⟩
      rw [ihe]
      simp only [List.length_tail, List.length_append, List.length_cons, List.length_nil]
      have htl : (h.entries ++ [l]).tail ++ ls = (h.entries ++ l :: ls).tail := by
        rcases h.entries with _ | ⟨x, xs⟩ <;> simp
      rw [htl, ← List.drop_one, List.drop_drop]
      congr 1
      omega
    · rw [if_neg (by simpa using h1)]
      have ih := History.addAll_spec ls ⟨h.max_entries, h.entries ++ [l]⟩
        (by simp; omega)
      rcases ih with ⟨ihm, ihe⟩
      refine ⟨ihm, ?_⟩
      rw [ihe]
      simp only [List.length_append, List.length_cons, List.length_nil, List.append_assoc,
        List.cons_append, List.nil_append]
      congr 1
      omega

/-- C5: History::add_line keeps size() within the capacity, and adding
c + k lines (k ≥ 1) to an initially empty History of capacity c leaves
exactly the c most recent lines in insertion order: the k oldest were
evicted. -/
theorem history_bounded_fifo (c k : Nat) (lines : List String) (h : History) (l : String)
    (hsz : h.size ≤ h.max_entries) (hlen : lines.length = c + k) (hk : 1 ≤ k) :
    (h.add_line l).size ≤ h.max_entries ∧
    (History.addAll (History.mk c []) lines).entries = lines.drop k ∧
    (History.addAll (History.mk c []) lines).size = c := by
  have hall := History.addAll_spec lines (History.mk c []) (by simp)
  rcases hall with ⟨hm, he⟩
  simp only [List.length_nil, List.nil_append] at he
  have he' : (History.addAll (History.mk c []) lines).entries = lines.drop k := by
    rw [he]
    congr 1
    omega
  refine ⟨?_, he', ?_⟩
  · unfold History.add_line
    simp only [History.size] at hsz ⊢
    split_ifs with h1 <;> simp_all [List.length_tail]
  · simp only [History.size, he', List.length_drop]
    omega

/-- Witness for C5: capacity 2, four lines added, the two oldest gone and
the two most recent kept in order. -/
theorem history_bounded_fifo_witness :
    ((History.mk 2 ["x"]).add_line "y").size ≤ 2 ∧
    (History.addAll (History.mk 2 []) ["a", "b", "c", "d"]).entries = ["c", "d"] ∧
    (History.addAll (History.mk 2 []) ["a", "b", "c", "d"]).size = 2 := by
  have h := history_bounded_fifo 2 2 ["a", "b", "c", "d"] (History.mk 2 ["x"]) "y"
    (by decide) (by decide) (by decide)
  exact ⟨h.1, h.2.1.trans (by decide), h.2.2⟩

/-- C10: the accept path (do_accept_command, which runs add_history and
reset_position) never rejects a line: for every buffer content — the empty
string and duplicates included — the committed string becomes the most
recent history entry, and the navigation cursor is reset to the size.  The
only hypothesis is the positive capacity, fixed at 1024 in the source. -/
theorem accept_stores_unconditionally (v : HistoryView) (b : Buffer)
    (hcap : 1 ≤ v.history.max_entries) :
    (doAcceptCommand v b).history.entries.getLast? = some (String.mk b.data) ∧
    (doAcceptCommand v b).current_line = (doAcceptCommand v b).history.size := by
  have h1 : (doAcceptCommand v b).history = v.history.add_line (String.mk b.data) := by
    simp only [doAcceptCommand, HistoryView.reset_position, HistoryView.add_line]
    split_ifs <;> rfl
  refine ⟨?_, rfl⟩
  rw [h1]
  unfold History.add_line
  simp only
  split_ifs with hman
  · rcases hent : v.history.entries with _ | ⟨x, xs⟩
    · rw [hent] at hman
      simp at hman
      omega
    · simp [List.getLast?_concat]
  · simp [List.getLast?_concat]

/-- Witness for C10: committing an empty buffer stores an empty-string
history entry. -/
theorem accept_stores_unconditionally_witness :
    (doAcceptCommand (HistoryView.mk (History.mk 1024 []) 0) Buffer.init).history.entries.getLast?
      = some "" ∧
    (doAcceptCommand (HistoryView.mk (History.mk 1024 []) 0) Buffer.init).current_line
      = (doAcceptCommand (HistoryView.mk (History.mk 1024 []) 0) Buffer.init).history.size := by
  have h := accept_stores_unconditionally (HistoryView.mk (History.mk 1024 []) 0) Buffer.init
    (by decide)
  exact ⟨h.1.trans (by decide), h.2⟩

lemma lookupSeq_sequences_ne_nil {α : Type} {l : List (Char × CTrie α)} {c : Char} {t : CTrie α}
    (h : lookupSeq l c = some t) : l.isEmpty = false := by
  cases l
  · simp [lookupSeq] at h
  · rfl

/-- C1: in any command trie where an action is registered for the byte
sequence "a" (node tA), for "ab" (node tB) and for "abc" (leaf node tC),
feeding the input bytes of "abc" to CommandReader::read_and_execute fires
exactly the action registered for "abc": the event trace is the singleton
of a3, so neither a1 nor a2 fired — the longest fully-matched sequence
wins. -/
theorem dispatcher_longest_match (α : Type) (root tA tB tC : CTrie α) (a1 a2 a3 : α)
    (dflt : Option α)
    (hA : root.find? 'a' = some tA) (hB : tA.find? 'b' = some tB) (hC : tB.find? 'c' = some tC)
    (_ha1 : tA.command = some a1) (_ha2 : tB.command = some a2)
    (hleaf : tC.sequences = []) (ha3 : tC.command = some a3) :
    readAndExecute root dflt 4 root [ 'a', 'b', 'c' ] = RunResult.finished [DEvent.action a3] := by
  have hAe : tA.sequences.isEmpty = false := lookupSeq_sequences_ne_nil hB
  have hBe : tB.sequences.isEmpty = false := lookupSeq_sequences_ne_nil hC
  simp [readAndExecute, hA, hB, hC, hAe, hBe, hleaf, ha3, consEvent]

/-- Witness for C1: the concrete trie built by inserting the three
sequences, run on the three input bytes, fires only the third action. -/
theorem dispatcher_longest_match_witness :
    readAndExecute (trieABC 1 2 3) (some 9) 4 (trieABC 1 2 3) [ 'a', 'b', 'c' ]
      = RunResult.finished [DEvent.action 3] :=
  dispatcher_longest_match Nat (trieABC 1 2 3) _ _ _ 1 2 3 (some 9)
    rfl rfl rfl rfl rfl rfl rfl

/-- C7: at any dispatch step where the incoming byte extends no registered
sequence from the current match node and no action is available there (in
particular whenever no action lies anywhere on the current match path),
the dispatcher fires the registered default action for exactly that byte
and continues without error; with no default action registered it stops
with the unknown-command error carrying that byte. -/
theorem dispatcher_unknown_byte (α : Type) (root t : CTrie α) (dflt : Option α)
    (n : Nat) (c : Char) (rest : List Char)
    (hfind : t.find? c = none) (hcmd : t.command = none) :
    (∀ d : α, dflt = some d →
      readAndExecute root dflt (n + 1) t (c :: rest)
        = consEvent (DEvent.dflt c) (readAndExecute root dflt n root rest)) ∧
    (dflt = none →
      readAndExecute root dflt (n + 1) t (c :: rest) = RunResult.unknown [] c) := by
  constructor
  · intro d hd
    subst hd
    simp [readAndExecute, hfind, hcmd]
  · intro hd
    subst hd
    simp [readAndExecute, hfind, hcmd]

/-- Witness for C7: an empty command table fed the byte z runs only the
default when one is set, and raises the unknown-command error for z when
none is set. -/
theorem dispatcher_unknown_byte_witness :
    readAndExecute (CTrie.node ([] : List (Char × CTrie Nat)) none) (some 0) 2
        (CTrie.node [] none) [ 'z' ]
      = RunResult.finished [DEvent.dflt 'z'] ∧
    readAndExecute (CTrie.node ([] : List (Char × CTrie Nat)) none) none 2
        (CTrie.node [] none) [ 'z' ]
      = RunResult.unknown [] 'z' := by
  constructor
  · exact ((dispatcher_unknown_byte Nat (CTrie.node [] none) (CTrie.node [] none) (some 0) 1 'z' []
      rfl rfl).1 0 rfl).trans (by decide)
  · exact (dispatcher_unknown_byte Nat (CTrie.node [] none) (CTrie.node [] none) none 1 'z' []
      rfl rfl).2 rfl
